import Mathlib

/-!
Shallow embedding of `abel/tools/vmi.py` (PyAbel).

The module under verification contains four functions:
`angular_integration`, `average_radial_intensity`, `radial_integration`
and `anisotropy_parameter`.  They operate on 2D numpy arrays, modelled
here as `List (List ℚ)` (row-major, real arithmetic modelled exactly by
rationals).

External collaborators are modelled as explicit function parameters:

* `reproject_image_into_polar` (from `abel.tools.polar`, not part of the
  verified module; the design treats it as a black box returning the
  polar image and its `R`, `T` coordinate grids) is a parameter
  `res : ResampleArgs → PolarData` (for `angular_integration`, which
  forwards origin/Jacobian/dr/dt to it) or `res0 : Arr2 → PolarData`
  (for `radial_integration`, which calls it with defaults only).
* `np.sin`, `np.cos`, `np.sqrt` and `np.pi` are parameters `sn`, `cs`,
  `sq : ℚ → ℚ` and `pi : ℚ`, since only their pointwise application
  matters to the module's control and data flow.
* `scipy.optimize.curve_fit` is modelled from the spec's boundary
  contract (see `curve_fit` below).

Python keyword-argument forwarding (`**kwargs`) is modelled by the
`Kwargs` structure: a field holds `some v` when the caller passed that
keyword and `none` when it is absent.
-/

/-- 1D numpy array of reals. -/
abbrev Arr := List ℚ

/-- 2D numpy array of reals, indexed (row, column). -/
abbrev Arr2 := List (List ℚ)

/-- Result triple of `reproject_image_into_polar`: the polar image
(indexed (radial_bin, angular_bin)) and the same-shaped radius and
angle coordinate grids. -/
structure PolarData where
  polarIM : Arr2
  R : Arr2
  T : Arr2

/-- Arguments that `angular_integration` passes to
`reproject_image_into_polar(IM, origin, Jacobian=Jacobian, dr=dr, dt=dt)`. -/
structure ResampleArgs where
  IM : Arr2
  origin : Option (ℚ × ℚ)
  Jacobian : Bool
  dr : ℚ
  dt : Option ℚ

/-- Element-wise product of two 2D arrays (numpy `*` on equal shapes). -/
def emul2 (A B : Arr2) : Arr2 :=
  (A.zip B).map (fun p => (p.1.zip p.2).map (fun q => q.1 * q.2))

/-- `np.abs(np.sin(T))` applied element-wise, for a sine function `sn`. -/
def absSinGrid (sn : ℚ → ℚ) (T : Arr2) : Arr2 :=
  T.map (fun row => row.map (fun t => |sn t|))

/-- `np.trapz(row, dx=dx)`: trapezoidal rule with uniform step. -/
def trapzRow (dx : ℚ) (row : Arr) : ℚ :=
  ((row.zip row.tail).map (fun p => dx * (p.1 + p.2) / 2)).sum

/-- `np.trapz(A, axis=1, dx=dx)`: trapezoidal rule along each row. -/
def trapz (dx : ℚ) (A : Arr2) : Arr :=
  A.map (trapzRow dx)

/-- `T[0,1] - T[0,0]`: the angular step reconstructed from the grid
(out-of-range indices yield the numpy-free default 0; the source would
raise on such malformed grids, which the claims never exercise). -/
def dtActual (T : Arr2) : ℚ :=
  (T.getD 0 []).getD 1 0 - (T.getD 0 []).getD 0 0

/-- First column of a 2D array, `A[:, 0]`. -/
def firstCol (A : Arr2) : Arr :=
  A.map (fun row => row.getD 0 0)

/-- `angular_integration(IM, origin=None, Jacobian=True, dr=1, dt=None)`:
resample to polar coordinates (forwarding the Jacobian flag), recover
the angular step from the grid, optionally weight by `R * |sin T|`,
integrate each radial row by the trapezoidal rule, and return the
radial coordinates truncated to the profile length together with the
profile. -/
def angular_integration (res : ResampleArgs → PolarData) (sn : ℚ → ℚ)
    (IM : Arr2) (origin : Option (ℚ × ℚ)) (Jacobian : Bool) (dr : ℚ)
    (dt : Option ℚ) : Arr × Arr :=
  let pd := res ⟨IM, origin, Jacobian, dr, dt⟩
  let dt2 := dtActual pd.T
  let polarIM := if Jacobian
    then emul2 (emul2 pd.polarIM pd.R) (absSinGrid sn pd.T)
    else pd.polarIM
  let speeds := trapz dt2 polarIM
  (firstCol (pd.R.take speeds.length), speeds)

/-- The keyword arguments a caller may pass to
`average_radial_intensity(IM, **kwargs)`: a field is `some v` when the
keyword was supplied with value `v`, `none` when absent. -/
structure Kwargs where
  origin : Option (Option (ℚ × ℚ)) := none
  Jacobian : Option Bool := none
  dr : Option ℚ := none
  dt : Option (Option ℚ) := none

/-- `average_radial_intensity(IM, **kwargs)`: calls
`angular_integration(IM, Jacobian=False, **kwargs)` and divides the
profile by `2π`.  If the caller's kwargs also contain `Jacobian`,
Python raises `TypeError` (a duplicate keyword argument) before the
callee runs, modelled by the `Except.error` branch. -/
def average_radial_intensity (res : ResampleArgs → PolarData)
    (sn : ℚ → ℚ) (pi : ℚ) (IM : Arr2) (kw : Kwargs) :
    Except String (Arr × Arr) :=
  if kw.Jacobian.isSome then
    Except.error "angular_integration got multiple values for keyword argument Jacobian"
  else
    let ri := angular_integration res sn IM (kw.origin.getD none) false
      (kw.dr.getD 1) (kw.dt.getD none)
    Except.ok (ri.1, ri.2.map (fun x => x / (2 * pi)))

/-- The `radial_ranges` argument of `radial_integration`: either an
integer step or an explicit list of `(r_lo, r_hi)` ranges. -/
inductive RadialRangesArg
  | int (k : ℕ)
  | ranges (l : List (ℚ × ℚ))

/-- `list(zip(r[:-step], r[step:]))` for an integer `step`.  Python's
`r[:-0]` is empty, hence the special case. -/
def stepBands (r : Arr) (step : ℕ) : List (ℚ × ℚ) :=
  if step = 0 then []
  else (r.take (r.length - step)).zip (r.drop step)

/-- The two type-dispatch lines of `radial_integration`: `None` becomes
the integer 1, an integer becomes the zipped sliding windows, and an
explicit list is used as is. -/
def resolveBands (r : Arr) : Option RadialRangesArg → List (ℚ × ℚ)
  | none => stepBands r 1
  | some (.int k) => stepBands r k
  | some (.ranges l) => l

/-- Number of columns of a 2D array (numpy shape component 1). -/
def ncols (A : Arr2) : ℕ :=
  (A.getD 0 []).length

/-- `np.sum(rows, axis=0)` for a selection of rows of an array with
`n` columns: column-wise sum, `[0, …, 0]` when no row is selected. -/
def sumRows (n : ℕ) (rows : List Arr) : Arr :=
  rows.foldl (fun acc row => acc.zipWith (fun a b => a + b) row)
    (List.replicate n 0)

/-- One loop iteration of `radial_integration`: select the rows of the
polar image whose radius `r[i]` satisfies `rr[0] <= r[i] <= rr[1]`
(the boolean mask `subr`) and sum them along the radial axis. -/
def bandProfile (pd : PolarData) (rr : ℚ × ℚ) : Arr :=
  sumRows (ncols pd.polarIM)
    ((((firstCol pd.R).zip pd.polarIM).filter
      (fun p => decide (rr.1 ≤ p.1) && decide (p.1 ≤ rr.2))).map Prod.snd)

/-- `radial_integration(IM, radial_ranges=None)`: resample to polar
coordinates with defaults, resolve the band specification, and return
the stacked per-band angular profiles, the angular axis `T[0, :]` and
the band midpoints `np.mean(rr)`. -/
def radial_integration (res0 : Arr2 → PolarData) (IM : Arr2)
    (radial_ranges : Option RadialRangesArg) : Arr2 × Arr × Arr :=
  let pd := res0 IM
  let theta := pd.T.getD 0 []
  let r := firstCol pd.R
  let bands := resolveBands r radial_ranges
  (bands.map (fun rr => bandProfile pd rr), theta,
    bands.map (fun rr => (rr.1 + rr.2) / 2))

/-- `P2(x) = (3x² - 1)/2`, the 2nd order Legendre polynomial (nested
helper of `anisotropy_parameter`, hoisted). -/
def P2 (x : ℚ) : ℚ :=
  (3 * x * x - 1) / 2

/-- `PAD(theta, beta, amplitude) = amplitude * (1 + beta * P2(cos theta))`
(nested helper of `anisotropy_parameter`, hoisted; `cs` models
`np.cos`). -/
def PAD (cs : ℚ → ℚ) (theta beta amplitude : ℚ) : ℚ :=
  amplitude * (1 + beta * P2 (cs theta))

/-- The boolean mask `subtheta` of `anisotropy_parameter`: start from
all ones and `logical_and` in, for each range, the element-wise test
`theta >= rt[0] and theta <= rt[1]`. -/
def thetaMask (theta : Arr) (ranges : List (ℚ × ℚ)) : List Bool :=
  ranges.foldl
    (fun acc rt => acc.zipWith (fun a b => a && b)
      (theta.map (fun t => decide (rt.1 ≤ t) && decide (t ≤ rt.2))))
    (List.replicate theta.length true)

/-- Numpy boolean-mask indexing `xs[mask]`. -/
def applyMask (mask : List Bool) (xs : Arr) : Arr :=
  ((mask.zip xs).filter (fun p => p.1)).map Prod.snd

/-- Modelled from the spec: `scipy.optimize.curve_fit`, the external
nonlinear least-squares solver (the source module only calls it).  Per
the boundary contract it receives the model function and the data and
returns the best-fit parameter pair and the 2×2 covariance matrix, and
it fails explicitly — rather than returning values — when fewer data
points than the model's 2 free parameters are supplied, since the fit
is then under-determined.  The fitting computation itself is abstracted
into the parameter `solve`. -/
def curve_fit (solve : (ℚ → ℚ → ℚ → ℚ) → Arr → Arr → (ℚ × ℚ) × Arr2)
    (f : ℚ → ℚ → ℚ → ℚ) (xdata ydata : Arr) :
    Except String ((ℚ × ℚ) × Arr2) :=
  if xdata.length < 2 then
    Except.error "The number of func parameters=2 must not exceed the number of data points"
  else
    Except.ok (solve f xdata ydata)

/-- `anisotropy_parameter(theta, intensity, theta_ranges=None)`: if
ranges are given, restrict `theta` and `intensity` by the conjunctive
boolean mask, fit the `PAD` model with `curve_fit`, and return
`(beta, error_beta), (amplitude, error_amplitude)` with the errors the
square roots (`sq` models `np.sqrt`) of the covariance diagonal. -/
def anisotropy_parameter
    (solve : (ℚ → ℚ → ℚ → ℚ) → Arr → Arr → (ℚ × ℚ) × Arr2)
    (sq cs : ℚ → ℚ) (theta intensity : Arr)
    (theta_ranges : Option (List (ℚ × ℚ))) :
    Except String ((ℚ × ℚ) × (ℚ × ℚ)) :=
  let data := match theta_ranges with
    | none => (theta, intensity)
    | some ranges =>
        let subtheta := thetaMask theta ranges
        (applyMask subtheta theta, applyMask subtheta intensity)
  match curve_fit solve (PAD cs) data.1 data.2 with
  | Except.error e => Except.error e
  | Except.ok (popt, pcov) =>
      Except.ok ((popt.1, sq ((pcov.getD 0 []).getD 0 0)),
        (popt.2, sq ((pcov.getD 1 []).getD 1 0)))

/-! ### Concrete fixtures used to instantiate the universally quantified
theorems below. -/

/-- A concrete 1-radius × 2-angle polar grid. -/
def pdW : PolarData := ⟨[[2, 2]], [[1, 1]], [[0, 1]]⟩

/-- A concrete resampler ignoring its arguments. -/
def resW : ResampleArgs → PolarData := fun _ => pdW

/-- A concrete resampler whose output depends on the Jacobian flag it
receives, to observe which flag the callers pass down. -/
def resC1 : ResampleArgs → PolarData := fun a =>
  if a.Jacobian then ⟨[[1, 1]], [[1, 1]], [[0, 1]]⟩ else pdW

/-- A concrete stand-in for `np.sin`. -/
def snW : ℚ → ℚ := fun t => t

/-- A concrete input image (its content is irrelevant to the fixed
resamplers above). -/
def IMW : Arr2 := [[1]]

/-! ### Claims about `average_radial_intensity` -/

/-- The computation claim C1 describes: the angular integrator invoked
with Jacobian weighting disabled only at the element-wise-multiply step
while Jacobian weighting remains enabled at the resampler level (the
resampler receives `Jacobian := true`), the profile then divided by
`2π`.  Written from the claim's words, for comparison with
`average_radial_intensity`. -/
def average_radial_intensity_claimC1 (res : ResampleArgs → PolarData)
    (pi : ℚ) (IM : Arr2) (kw : Kwargs) : Arr × Arr :=
  let pd := res ⟨IM, kw.origin.getD none, true, kw.dr.getD 1, kw.dt.getD none⟩
  let speeds := trapz (dtActual pd.T) pd.polarIM
  (firstCol (pd.R.take speeds.length), speeds.map (fun x => x / (2 * pi)))

/-- C1 counterexample: with a resampler that distinguishes the Jacobian
flag it receives, `average_radial_intensity` does not compute what the
claim describes — the code passes `Jacobian=False` down to the
resampler as well, so the claimed resampler-level weighting is absent. -/
theorem average_radial_intensity_claimC1_cex :
    average_radial_intensity resC1 snW 3 IMW ⟨none, none, none, none⟩ ≠
      Except.ok (average_radial_intensity_claimC1 resC1 3 IMW
        ⟨none, none, none, none⟩) := by
  norm_num [average_radial_intensity, average_radial_intensity_claimC1,
    angular_integration, resC1, pdW, snW, IMW, trapz, trapzRow, dtActual,
    firstCol, List.zip, List.zipWith]

/-- C1 (amended): `average_radial_intensity` invokes the angular
integrator with Jacobian weighting disabled at *both* levels — the
single `Jacobian=False` flag skips the element-wise-multiply step and
is also forwarded to the resampler — and divides the resulting profile
by `2π`. -/
theorem average_radial_intensity_Jacobian_false_both_levels
    (res : ResampleArgs → PolarData) (sn : ℚ → ℚ) (pi : ℚ) (IM : Arr2)
    (kw : Kwargs) (h : kw.Jacobian = none) :
    average_radial_intensity res sn pi IM kw =
      Except.ok
        (firstCol ((res ⟨IM, kw.origin.getD none, false, kw.dr.getD 1,
            kw.dt.getD none⟩).R.take
          (trapz (dtActual (res ⟨IM, kw.origin.getD none, false, kw.dr.getD 1,
              kw.dt.getD none⟩).T)
            (res ⟨IM, kw.origin.getD none, false, kw.dr.getD 1,
              kw.dt.getD none⟩).polarIM).length),
         (trapz (dtActual (res ⟨IM, kw.origin.getD none, false, kw.dr.getD 1,
              kw.dt.getD none⟩).T)
            (res ⟨IM, kw.origin.getD none, false, kw.dr.getD 1,
              kw.dt.getD none⟩).polarIM).map (fun x => x / (2 * pi))) := by
  simp only [average_radial_intensity, angular_integration, h,
    Option.isSome_none, Bool.false_eq_true, if_false, if_neg]

/-- Closed instantiation of
`average_radial_intensity_Jacobian_false_both_levels` at a concrete
resampler, image and empty kwargs. -/
theorem average_radial_intensity_Jacobian_false_both_levels_witness :
    (Kwargs.mk none none none none).Jacobian = none ∧
    average_radial_intensity resW snW 3 IMW ⟨none, none, none, none⟩ =
      Except.ok
        (firstCol (pdW.R.take (trapz (dtActual pdW.T) pdW.polarIM).length),
         (trapz (dtActual pdW.T) pdW.polarIM).map (fun x => x / (2 * 3))) :=
  ⟨rfl, average_radial_intensity_Jacobian_false_both_levels resW snW 3 IMW
    ⟨none, none, none, none⟩ rfl⟩

/-- C2: for every image and every choice of the remaining keyword
arguments (origin, dr, dt), `average_radial_intensity` returns the same
radial coordinates as `angular_integration` with `Jacobian=False` and
an intensity array equal to that of `angular_integration` with
`Jacobian=False` divided exactly by `2π`. -/
theorem average_radial_intensity_eq_angular_integration_div_two_pi
    (res : ResampleArgs → PolarData) (sn : ℚ → ℚ) (pi : ℚ) (IM : Arr2)
    (kw : Kwargs) (h : kw.Jacobian = none) :
    average_radial_intensity res sn pi IM kw =
      Except.ok
        ((angular_integration res sn IM (kw.origin.getD none) false
            (kw.dr.getD 1) (kw.dt.getD none)).1,
         (angular_integration res sn IM (kw.origin.getD none) false
            (kw.dr.getD 1) (kw.dt.getD none)).2.map
          (fun x => x / (2 * pi))) := by
  simp [average_radial_intensity, h]

/-- Closed instantiation of
`average_radial_intensity_eq_angular_integration_div_two_pi` at a
concrete resampler, image and empty kwargs. -/
theorem average_radial_intensity_eq_angular_integration_div_two_pi_witness :
    (Kwargs.mk none none none none).Jacobian = none ∧
    average_radial_intensity resW snW 3 IMW ⟨none, none, none, none⟩ =
      Except.ok
        ((angular_integration resW snW IMW none false 1 none).1,
         (angular_integration resW snW IMW none false 1 none).2.map
          (fun x => x / (2 * 3))) :=
  ⟨rfl, average_radial_intensity_eq_angular_integration_div_two_pi resW snW
    3 IMW ⟨none, none, none, none⟩ rfl⟩

/-- C10: calling `average_radial_intensity` with an explicit `Jacobian`
keyword argument, of any value, fails with an error (Python's duplicate
keyword argument `TypeError`) rather than honoring or ignoring it,
because the function always supplies `Jacobian=False` itself while
forwarding the remaining keyword arguments. -/
theorem average_radial_intensity_duplicate_Jacobian_kwarg_error
    (res : ResampleArgs → PolarData) (sn : ℚ → ℚ) (pi : ℚ) (IM : Arr2)
    (kw : Kwargs) (h : kw.Jacobian.isSome = true) :
    average_radial_intensity res sn pi IM kw =
      Except.error
        "angular_integration got multiple values for keyword argument Jacobian" := by
  simp [average_radial_intensity, h]

/-- Closed instantiation of
`average_radial_intensity_duplicate_Jacobian_kwarg_error`: even passing
`Jacobian=False` explicitly (the very value the function supplies
itself) is rejected. -/
theorem average_radial_intensity_duplicate_Jacobian_kwarg_error_witness :
    (Kwargs.mk none (some false) none none).Jacobian.isSome = true ∧
    average_radial_intensity resW snW 3 IMW ⟨none, some false, none, none⟩ =
      Except.error
        "angular_integration got multiple values for keyword argument Jacobian" :=
  ⟨rfl, average_radial_intensity_duplicate_Jacobian_kwarg_error resW snW 3
    IMW ⟨none, some false, none, none⟩ rfl⟩

/-- A concrete defaults-only resampler for `radial_integration`. -/
def res0W : Arr2 → PolarData := fun _ => pdW

/-- C9: `radial_integration` is a pure function of its inputs — the
embedding has no mutable state, and two calls on equal inputs return
identical outputs (the input image is a value, so it cannot be
modified). -/
theorem radial_integration_deterministic (res0 : Arr2 → PolarData)
    (IM IM2 : Arr2) (rr rr2 : Option RadialRangesArg)
    (h1 : IM = IM2) (h2 : rr = rr2) :
    radial_integration res0 IM rr = radial_integration res0 IM2 rr2 := by
  rw [h1, h2]

/-- Closed instantiation of `radial_integration_deterministic` on a
concrete image and band specification. -/
theorem radial_integration_deterministic_witness :
    IMW = IMW ∧ (none : Option RadialRangesArg) = none ∧
    radial_integration res0W IMW none = radial_integration res0W IMW none :=
  ⟨rfl, rfl, radial_integration_deterministic res0W IMW IMW none none rfl rfl⟩

/-! ### Claims about `radial_integration` -/

/-- Zipping truncates to the shorter list, so pre-truncating the left
list to the right list's length changes nothing. -/
theorem take_length_zip {α β : Type} (l1 : List α) (l2 : List β) :
    (l1.take l2.length).zip l2 = l1.zip l2 := by
  induction l1 generalizing l2 with
  | nil => simp
  | cons a t ih =>
    cases l2 with
    | nil => simp
    | cons b t2 => simp [ih]

/-- For a positive step, `zip(r[:-step], r[step:])` is the zip of `r`
with its own `step`-shifted tail. -/
theorem stepBands_eq_zip_drop (r : Arr) (step : ℕ) (h : 0 < step) :
    stepBands r step = r.zip (r.drop step) := by
  rw [stepBands, if_neg (Nat.pos_iff_ne_zero.mp h), ← List.length_drop,
    take_length_zip]

/-- For a positive step the integer-step form builds `len r - step`
bands. -/
theorem length_stepBands (r : Arr) (step : ℕ) (h : 0 < step) :
    (stepBands r step).length = r.length - step := by
  rw [stepBands_eq_zip_drop r step h, List.length_zip, List.length_drop]
  exact Nat.min_eq_right (Nat.sub_le _ _)

/-- Band `i` of the integer-step form pairs `r[i]` with `r[i+step]`. -/
theorem stepBands_getD (r : Arr) (step i : ℕ) (h : 0 < step)
    (hi : i < r.length - step) :
    (stepBands r step).getD i (0, 0) = (r.getD i 0, r.getD (step + i) 0) := by
  have hb : i < (stepBands r step).length := by
    rw [length_stepBands r step h]; exact hi
  have h1 : i < r.length := lt_of_lt_of_le hi (Nat.sub_le _ _)
  have h2 : step + i < r.length := by omega
  rw [stepBands_eq_zip_drop r step h] at hb ⊢
  rw [List.getD_eq_getElem _ _ hb, List.getElem_zip,
    List.getD_eq_getElem _ _ h1, List.getD_eq_getElem _ _ h2]
  refine congrArg₂ Prod.mk rfl ?_
  rw [List.getElem_drop]

/-- Claim C3 calls the bands built from an integer step
"overlapping-free": no grid radius may lie in more than one band's
inclusive interval.  Written from the claim's words, for comparison
with the bands `stepBands` actually builds. -/
def bandsNonOverlapping (r : Arr) (bands : List (ℚ × ℚ)) : Prop :=
  ∀ x ∈ r, (bands.countP (fun b => decide (b.1 ≤ x) && decide (x ≤ b.2))) ≤ 1

/-- C3 counterexample: on the radial grid `[0, 1, 2, 3]` with step 2,
the code builds the bands `[(0, 2), (1, 3)]` — the claimed count
`len r - step = 2` and the claimed pairing hold, but the bands are
*not* overlapping-free: the radii 1 and 2 each fall inside both
bands. -/
theorem stepBands_claimC3_cex :
    stepBands [0, 1, 2, 3] 2 = [((0 : ℚ), 2), (1, 3)] ∧
    ¬ bandsNonOverlapping [0, 1, 2, 3] (stepBands [0, 1, 2, 3] 2) := by
  constructor
  · decide
  · intro hcl
    have := hcl 1 (by decide)
    revert this
    decide

/-- C3 (amended): for every positive integer `step`,
`radial_integration` builds exactly `len r - step` bands, band `i`
pairing `r[i]` with `r[i+step]` — step-width contiguous *sliding*
windows covering the radial range minus the last `step` samples; for
`step ≥ 2` consecutive windows overlap (they are not disjoint). -/
theorem radial_integration_step_sliding_windows (res0 : Arr2 → PolarData)
    (IM : Arr2) (step : ℕ) (h : 0 < step) :
    (radial_integration res0 IM (some (.int step))).1.length =
      (firstCol (res0 IM).R).length - step ∧
    resolveBands (firstCol (res0 IM).R) (some (.int step)) =
      (firstCol (res0 IM).R).zip ((firstCol (res0 IM).R).drop step) ∧
    ∀ i, i < (firstCol (res0 IM).R).length - step →
      (resolveBands (firstCol (res0 IM).R) (some (.int step))).getD i (0, 0) =
        ((firstCol (res0 IM).R).getD i 0,
         (firstCol (res0 IM).R).getD (step + i) 0) := by
  refine ⟨?_, stepBands_eq_zip_drop _ step h,
    fun i hi => stepBands_getD _ step i h hi⟩
  simp only [radial_integration, List.length_map]
  exact length_stepBands _ step h

/-- A concrete defaults-only resampler with four radial bins
`[0, 1, 2, 3]` and two angular bins. -/
def res0C3 : Arr2 → PolarData := fun _ =>
  ⟨[[1, 1], [1, 1], [1, 1], [1, 1]],
   [[0, 0], [1, 1], [2, 2], [3, 3]],
   [[0, 1], [0, 1], [0, 1], [0, 1]]⟩

/-- Closed instantiation of `radial_integration_step_sliding_windows`
at step 2 on a four-radius grid. -/
theorem radial_integration_step_sliding_windows_witness :
    0 < 2 ∧
    ((radial_integration res0C3 IMW (some (.int 2))).1.length =
      (firstCol (res0C3 IMW).R).length - 2 ∧
    resolveBands (firstCol (res0C3 IMW).R) (some (.int 2)) =
      (firstCol (res0C3 IMW).R).zip ((firstCol (res0C3 IMW).R).drop 2) ∧
    ∀ i, i < (firstCol (res0C3 IMW).R).length - 2 →
      (resolveBands (firstCol (res0C3 IMW).R) (some (.int 2))).getD i (0, 0) =
        ((firstCol (res0C3 IMW).R).getD i 0,
         (firstCol (res0C3 IMW).R).getD (2 + i) 0)) :=
  ⟨by decide, radial_integration_step_sliding_windows res0C3 IMW 2 (by decide)⟩

/-- C5: with `radial_ranges` unspecified (or equal to the integer 1),
`radial_integration` produces exactly `len r - 1` bands, each pairing
consecutive grid radii, with representative radius the arithmetic mean
of the two consecutive radii. -/
theorem radial_integration_default_unit_bands (res0 : Arr2 → PolarData)
    (IM : Arr2) :
    radial_integration res0 IM none =
      radial_integration res0 IM (some (.int 1)) ∧
    resolveBands (firstCol (res0 IM).R) none =
      (firstCol (res0 IM).R).zip ((firstCol (res0 IM).R).tail) ∧
    (radial_integration res0 IM none).1.length =
      (firstCol (res0 IM).R).length - 1 ∧
    (radial_integration res0 IM none).2.2 =
      ((firstCol (res0 IM).R).zip ((firstCol (res0 IM).R).tail)).map
        (fun p => (p.1 + p.2) / 2) := by
  have hb : resolveBands (firstCol (res0 IM).R) none =
      (firstCol (res0 IM).R).zip ((firstCol (res0 IM).R).tail) := by
    show stepBands _ 1 = _
    rw [stepBands_eq_zip_drop _ 1 one_pos, List.drop_one]
  refine ⟨rfl, hb, ?_, ?_⟩
  · simp only [radial_integration, List.length_map]
    exact length_stepBands _ 1 one_pos
  · simp only [radial_integration]
    rw [hb]

/-- C8: a requested band `[lo, hi]` whose inclusive interval contains
no grid radius selects no rows, so its angular profile is the all-zero
vector of the angular axis's length; `radial_integration` is a total
function (there is no error path), so no error is raised. -/
theorem radial_integration_empty_band_zero_profile
    (res0 : Arr2 → PolarData) (IM : Arr2) (bands : List (ℚ × ℚ))
    (lo hi : ℚ)
    (hempty : ∀ x ∈ firstCol (res0 IM).R, ¬(lo ≤ x ∧ x ≤ hi))
    (hcols : ncols (res0 IM).polarIM =
      (radial_integration res0 IM (some (.ranges bands))).2.1.length) :
    (radial_integration res0 IM (some (.ranges bands))).1 =
      bands.map (fun rr => bandProfile (res0 IM) rr) ∧
    bandProfile (res0 IM) (lo, hi) =
      List.replicate
        ((radial_integration res0 IM (some (.ranges bands))).2.1.length) 0 := by
  refine ⟨rfl, ?_⟩
  rw [bandProfile, ← hcols]
  have hfil : ((firstCol (res0 IM).R).zip (res0 IM).polarIM).filter
      (fun p => decide ((lo, hi).1 ≤ p.1) && decide (p.1 ≤ (lo, hi).2)) = [] := by
    rw [List.filter_eq_nil_iff]
    intro p hp
    have hmem : p.1 ∈ firstCol (res0 IM).R := (List.of_mem_zip hp).1
    have hne := hempty p.1 hmem
    simp only [Bool.and_eq_true, decide_eq_true_eq, not_and]
    intro h1 h2
    exact hne ⟨h1, h2⟩
  rw [hfil]
  rfl

/-- Closed instantiation of
`radial_integration_empty_band_zero_profile` on the four-radius grid
with the empty band `[10, 11]`. -/
theorem radial_integration_empty_band_zero_profile_witness :
    (∀ x ∈ firstCol (res0C3 IMW).R, ¬((10 : ℚ) ≤ x ∧ x ≤ 11)) ∧
    ncols (res0C3 IMW).polarIM =
      (radial_integration res0C3 IMW (some (.ranges [(10, 11)]))).2.1.length ∧
    ((radial_integration res0C3 IMW (some (.ranges [(10, 11)]))).1 =
      [((10 : ℚ), (11 : ℚ))].map (fun rr => bandProfile (res0C3 IMW) rr) ∧
    bandProfile (res0C3 IMW) (10, 11) =
      List.replicate
        ((radial_integration res0C3 IMW (some (.ranges [(10, 11)]))).2.1.length)
        0) :=
  ⟨by decide, by decide,
   radial_integration_empty_band_zero_profile res0C3 IMW [(10, 11)] 10 11
     (by decide) (by decide)⟩

/-! ### Claims about `angular_integration` -/

/-- C4: when the Jacobian flag is set, the polar image is multiplied
element-wise by `R * |sin T|` before integration, the integration over
the angular axis is the trapezoidal rule with step
`dt_actual = T[0,1] - T[0,0]`, and (for shape-consistent resampler
output) the profile has one intensity value per radial bin. -/
theorem angular_integration_Jacobian_weighting
    (res : ResampleArgs → PolarData) (sn : ℚ → ℚ) (IM : Arr2)
    (origin : Option (ℚ × ℚ)) (dr : ℚ) (dt : Option ℚ)
    (hR : (res ⟨IM, origin, true, dr, dt⟩).R.length =
      (res ⟨IM, origin, true, dr, dt⟩).polarIM.length)
    (hT : (res ⟨IM, origin, true, dr, dt⟩).T.length =
      (res ⟨IM, origin, true, dr, dt⟩).polarIM.length) :
    (angular_integration res sn IM origin true dr dt).2 =
      trapz (dtActual (res ⟨IM, origin, true, dr, dt⟩).T)
        (emul2 (emul2 (res ⟨IM, origin, true, dr, dt⟩).polarIM
            (res ⟨IM, origin, true, dr, dt⟩).R)
          (absSinGrid sn (res ⟨IM, origin, true, dr, dt⟩).T)) ∧
    (angular_integration res sn IM origin true dr dt).2.length =
      (res ⟨IM, origin, true, dr, dt⟩).polarIM.length := by
  refine ⟨rfl, ?_⟩
  show (trapz _ (emul2 (emul2 _ _) (absSinGrid sn _))).length = _
  rw [trapz, List.length_map, emul2, List.length_map, List.length_zip,
    emul2, List.length_map, List.length_zip, absSinGrid, List.length_map,
    hR, hT, Nat.min_self, Nat.min_self]

/-- Closed instantiation of `angular_integration_Jacobian_weighting`
on the concrete 1 × 2 polar grid. -/
theorem angular_integration_Jacobian_weighting_witness :
    (resW ⟨IMW, none, true, 1, none⟩).R.length =
      (resW ⟨IMW, none, true, 1, none⟩).polarIM.length ∧
    (resW ⟨IMW, none, true, 1, none⟩).T.length =
      (resW ⟨IMW, none, true, 1, none⟩).polarIM.length ∧
    ((angular_integration resW snW IMW none true 1 none).2 =
      trapz (dtActual (resW ⟨IMW, none, true, 1, none⟩).T)
        (emul2 (emul2 (resW ⟨IMW, none, true, 1, none⟩).polarIM
            (resW ⟨IMW, none, true, 1, none⟩).R)
          (absSinGrid snW (resW ⟨IMW, none, true, 1, none⟩).T)) ∧
    (angular_integration resW snW IMW none true 1 none).2.length =
      (resW ⟨IMW, none, true, 1, none⟩).polarIM.length) :=
  ⟨rfl, rfl,
   angular_integration_Jacobian_weighting resW snW IMW none 1 none rfl rfl⟩

/-! ### Claims about `anisotropy_parameter` -/

/-- Folding one more conjunct into a boolean mask and reading it
through the zip distributes over the per-element conjunction. -/
theorem zipWith_and_zip_map {acc : List Bool} {theta : Arr}
    (f g : ℚ → Bool) :
    ((acc.zipWith (fun a b => a && b) (theta.map f)).zip theta).map
        (fun p => p.1 && g p.2) =
      (acc.zip theta).map (fun p => p.1 && (f p.2 && g p.2)) := by
  induction acc generalizing theta with
  | nil => simp
  | cons a t ih =>
    cases theta with
    | nil => simp
    | cons x xs => simp [ih, Bool.and_assoc]

/-- The mask fold of `anisotropy_parameter`, started from any
accumulator of the right length, computes the accumulator conjoined
pointwise with membership in every range. -/
theorem thetaMask_fold (theta : Arr) (ranges : List (ℚ × ℚ))
    (acc : List Bool) (h : acc.length = theta.length) :
    ranges.foldl
      (fun acc rt => acc.zipWith (fun a b => a && b)
        (theta.map (fun t => decide (rt.1 ≤ t) && decide (t ≤ rt.2))))
      acc =
    (acc.zip theta).map
      (fun p => p.1 &&
        ranges.all (fun rt => decide (rt.1 ≤ p.2) && decide (p.2 ≤ rt.2))) := by
  induction ranges generalizing acc with
  | nil =>
    simp only [List.foldl_nil, List.all_nil, Bool.and_true]
    rw [List.map_fst_zip]
    exact le_of_eq h
  | cons rt rest ih =>
    rw [List.foldl_cons,
      ih _ (by rw [List.length_zipWith, List.length_map, h, Nat.min_self])]
    have haux := @zipWith_and_zip_map acc theta
      (fun t => decide (rt.1 ≤ t) && decide (t ≤ rt.2))
      (fun t => rest.all fun rt2 => decide (rt2.1 ≤ t) && decide (t ≤ rt2.2))
    rw [haux]
    simp [List.all_cons]

/-- The boolean mask built by `anisotropy_parameter` keeps position `i`
exactly when `theta[i]` satisfies *every* supplied range's bounds. -/
theorem thetaMask_eq_map (theta : Arr) (ranges : List (ℚ × ℚ)) :
    thetaMask theta ranges =
      theta.map (fun t =>
        ranges.all (fun rt => decide (rt.1 ≤ t) && decide (t ≤ rt.2))) := by
  rw [thetaMask, thetaMask_fold theta ranges _ (List.length_replicate _ _)]
  have hz : (List.replicate theta.length true).zip theta =
      theta.map (fun t => (true, t)) := by
    induction theta with
    | nil => simp
    | cons x xs ih => simpa [List.replicate_succ] using ih
  rw [hz, List.map_map]
  simp

/-- Boolean-mask indexing on a cons cell. -/
theorem applyMask_cons (b : Bool) (m : List Bool) (x : ℚ) (xs : Arr) :
    applyMask (b :: m) (x :: xs) =
      if b then x :: applyMask m xs else applyMask m xs := by
  cases b <;> simp [applyMask]

/-- Masking two equal-length arrays by a predicate on the first one is
filtering the zipped pairs by that predicate on the first component. -/
theorem applyMask_map_filter (theta intensity : Arr) (f : ℚ → Bool)
    (h : intensity.length = theta.length) :
    (applyMask (theta.map f) theta).zip (applyMask (theta.map f) intensity) =
      (theta.zip intensity).filter (fun p => f p.1) := by
  induction theta generalizing intensity with
  | nil => simp [applyMask]
  | cons t ts ih =>
    cases intensity with
    | nil => simp at h
    | cons i is =>
      have h2 : is.length = ts.length := by simpa using h
      cases hf : f t
      · simp [List.map_cons, applyMask_cons, hf, List.filter_cons, ih is h2]
      · simp [List.map_cons, applyMask_cons, hf, List.filter_cons, ih is h2]

/-- C6: with a non-empty list of angular sub-ranges, the data reaching
the fit is exactly the `(theta, intensity)` pairs whose `theta` lies in
the *intersection* of all supplied ranges — a point is kept iff it
satisfies every range's lower and upper bound simultaneously — and
`anisotropy_parameter` with ranges equals `anisotropy_parameter` run on
that restricted data with no ranges. -/
theorem anisotropy_parameter_conjunctive_filter (theta intensity : Arr)
    (ranges : List (ℚ × ℚ)) (hlen : intensity.length = theta.length)
    (_hne : ranges ≠ []) :
    (applyMask (thetaMask theta ranges) theta).zip
        (applyMask (thetaMask theta ranges) intensity) =
      (theta.zip intensity).filter
        (fun p => ranges.all
          (fun rt => decide (rt.1 ≤ p.1) && decide (p.1 ≤ rt.2))) ∧
    ∀ solve sq cs,
      anisotropy_parameter solve sq cs theta intensity (some ranges) =
        anisotropy_parameter solve sq cs
          (applyMask (thetaMask theta ranges) theta)
          (applyMask (thetaMask theta ranges) intensity) none := by
  constructor
  · rw [thetaMask_eq_map]
    exact applyMask_map_filter theta intensity _ hlen
  · intro solve sq cs
    rfl

/-- A concrete angular profile and range list. -/
def thetaW : Arr := [0, 1, 2, 3]

/-- Concrete intensities matching `thetaW`. -/
def intenW : Arr := [5, 6, 7, 8]

/-- Two overlapping angular ranges; their intersection is `[1, 2]`. -/
def rangesW : List (ℚ × ℚ) := [(1, 3), (0, 2)]

/-- Closed instantiation of
`anisotropy_parameter_conjunctive_filter`: of the angles
`[0, 1, 2, 3]`, only `1` and `2` lie in both ranges `(1, 3)` and
`(0, 2)`, so only those points reach the fit. -/
theorem anisotropy_parameter_conjunctive_filter_witness :
    intenW.length = thetaW.length ∧ rangesW ≠ [] ∧
    ((applyMask (thetaMask thetaW rangesW) thetaW).zip
        (applyMask (thetaMask thetaW rangesW) intenW) =
      (thetaW.zip intenW).filter
        (fun p => rangesW.all
          (fun rt => decide (rt.1 ≤ p.1) && decide (p.1 ≤ rt.2))) ∧
    ∀ solve sq cs,
      anisotropy_parameter solve sq cs thetaW intenW (some rangesW) =
        anisotropy_parameter solve sq cs
          (applyMask (thetaMask thetaW rangesW) thetaW)
          (applyMask (thetaMask thetaW rangesW) intenW) none) :=
  ⟨by decide, by decide,
   anisotropy_parameter_conjunctive_filter thetaW intenW rangesW
     (by decide) (by decide)⟩

/-- C7: when fewer than 2 data points remain after the angular-range
filtering, the least-squares fit is under-determined and
`anisotropy_parameter` fails with an explicit error instead of
returning zero or arbitrary parameter values. -/
theorem anisotropy_parameter_too_few_points_error
    (solve : (ℚ → ℚ → ℚ → ℚ) → Arr → Arr → (ℚ × ℚ) × Arr2)
    (sq cs : ℚ → ℚ) (theta intensity : Arr)
    (tr : Option (List (ℚ × ℚ)))
    (h : (match tr with
      | none => theta
      | some ranges => applyMask (thetaMask theta ranges) theta).length < 2) :
    anisotropy_parameter solve sq cs theta intensity tr =
      Except.error
        "The number of func parameters=2 must not exceed the number of data points" := by
  cases tr with
  | none =>
      simp only at h
      rw [anisotropy_parameter, curve_fit, if_pos h]
  | some ranges =>
      simp only at h
      rw [anisotropy_parameter, curve_fit, if_pos h]

/-- A concrete stand-in for the abstract least-squares computation. -/
def solveW : (ℚ → ℚ → ℚ → ℚ) → Arr → Arr → (ℚ × ℚ) × Arr2 :=
  fun _ _ _ => ((0, 0), [[0, 0], [0, 0]])

/-- Closed instantiation of
`anisotropy_parameter_too_few_points_error` on a single data point. -/
theorem anisotropy_parameter_too_few_points_error_witness :
    ([(0 : ℚ)] : Arr).length < 2 ∧
    anisotropy_parameter solveW snW snW [0] [0] none =
      Except.error
        "The number of func parameters=2 must not exceed the number of data points" :=
  ⟨by decide,
   anisotropy_parameter_too_few_points_error solveW snW snW [0] [0] none
     (by decide)⟩
